import Mathlib

/-!
Verification development for the openCursor tool-execution framework and
streaming tool-call orchestration loop.

The Go source is shallowly embedded: pure functions become Lean functions,
filesystem state becomes an explicit association-list filesystem, fallible
code returns `Except`/`Option`.  Machine integers in the relevant code paths
are small line counts and string lengths, far from 64-bit overflow, so they
are embedded as `Int`/`Nat`.
-/

set_option maxHeartbeats 1000000
set_option maxRecDepth 100000

namespace OpenCursor

/-! ## Streaming tool-call accumulation (client.go, StreamQueryWithTools)

A streamed response delta carries a list of partial tool-call fragments
(`openai.ToolCall` with an optional `Index`).  The orchestrator merges the
fragments into a growing list of tool calls, keyed by index.
-/

/-- One tool-call fragment arriving in a stream delta
(`delta.ToolCalls` element).  `index` is `Option` because the Go field is a
`*int` and nil-indexed fragments are skipped. -/
structure StreamToolCall where
  index : Option Nat
  id : String
  type : String
  name : String
  arguments : String
deriving DecidableEq, Repr

/-- An accumulated tool call (`openai.ToolCall` being built up). -/
structure AccToolCall where
  id : String
  type : String
  name : String
  arguments : String
deriving DecidableEq, Repr

/-- The zero value `openai.ToolCall\x7b\x7d` appended when growing the list. -/
def emptyToolCall : AccToolCall := ⟨"", "", "", ""⟩

/-- Field update applied for one fragment at its index (client.go lines
365-374): a non-empty id sets id and type, a non-empty name sets name, a
non-empty arguments fragment is appended to the arguments string. -/
def applyOne (tc : AccToolCall) (f : StreamToolCall) : AccToolCall :=
  let tc := if f.id ≠ "" then { tc with id := f.id, type := f.type } else tc
  let tc := if f.name ≠ "" then { tc with name := f.name } else tc
  if f.arguments ≠ "" then { tc with arguments := tc.arguments ++ f.arguments } else tc

/-- `for len(toolCalls) <= index: append(toolCalls, openai.ToolCall\x7b\x7d)`:
pad the list with zero values until it has an entry at `index`. -/
def ensureLen (tcs : List AccToolCall) (index : Nat) : List AccToolCall :=
  tcs ++ List.replicate (index + 1 - tcs.length) emptyToolCall

/-- Merge one arriving fragment into the accumulated list (client.go lines
353-375): nil-indexed fragments are skipped, otherwise the list is grown to
cover the index and the entry at the index is updated field by field. -/
def applyFragment (tcs : List AccToolCall) (f : StreamToolCall) : List AccToolCall :=
  match f.index with
  | none => tcs
  | some index =>
    let tcs := ensureLen tcs index
    tcs.set index (applyOne (tcs.getD index emptyToolCall) f)

/-- Accumulate a whole stream of fragments, in arrival order, starting from
the empty list (the per-round `var toolCalls []openai.ToolCall`). -/
def accumToolCalls (fs : List StreamToolCall) : List AccToolCall :=
  fs.foldl applyFragment []

/-- Modelled from the spec: the completed tool call the spec expects at one
index, obtained by folding that index's fragments, in arrival order, over the
zero value. -/
def mergedAt (fs : List StreamToolCall) (i : Nat) : AccToolCall :=
  (fs.filter (fun f => f.index = some i)).foldl applyOne emptyToolCall

/-- Concatenation of a list of strings in order (spec-side description of
argument accumulation). -/
def concatAll : List String → String
  | [] => ""
  | s :: rest => s ++ concatAll rest

/-- The last non-empty string of a list, or `""` if none (spec-side
description of how repeated id/name fragments settle). -/
def lastNonEmpty : List String → String
  | [] => ""
  | s :: rest =>
    let t := lastNonEmpty rest
    if t = "" then s else t

/-! ## The orchestration round loop (client.go, StreamQueryWithTools)

The loop control flow depends only on whether the round's accumulated tool
calls are empty: `for iteration := 0; iteration < maxIterations; iteration++`
drains one stream, and `if len(toolCalls) == 0 break`.  Message history and
tool execution never feed back into the loop condition (tool execution errors
are folded into the tool reply, not returned).  Transport is modelled as a
total function from round number to that round's successfully delivered
fragments; the loop returns the number of rounds performed.
-/

/-- `maxIterations := 5` (client.go line 307). -/
def maxIterations : Nat := 5

/-- The round loop: at each iteration drain the round's stream, accumulate
its tool calls, stop after this round if none were assembled, otherwise
execute them and continue; the fuel is the remaining iteration budget.
Returns the number of rounds performed. -/
def roundsLoop (responses : Nat → List StreamToolCall) : Nat → Nat → Nat
  | iteration, 0 => iteration
  | iteration, fuel + 1 =>
    let toolCalls := accumToolCalls (responses iteration)
    if toolCalls.isEmpty then iteration + 1
    else roundsLoop responses (iteration + 1) fuel

/-- `StreamQueryWithTools`, abstracted over the model transport: the Go
function returns a non-nil error only on transport failure, which is outside
this model, so here it always returns `.ok` with the number of rounds run. -/
def streamQueryWithTools (responses : Nat → List StreamToolCall) : Except String Nat :=
  .ok (roundsLoop responses 0 maxIterations)

/-! ## Tool manager (internal/tools/manager.go, types.go)

The registry `map[string]Tool` is embedded as an association list with at
most one entry per key (lookup returns the first match, which coincides with
the map semantics because `RegisterTool` refuses duplicates).  Go's
`interface\x7b\x7d` JSON values are embedded as a small inductive.
-/

/-- A JSON-compatible value (`interface\x7b\x7d` as produced by
`encoding/json`). -/
inductive JValue where
  | str (s : String)
  | num (n : Int)
  | bool (b : Bool)
  | null
  | arr (xs : List JValue)
  | obj (fields : List (String × JValue))

/-- A tool parameter mapping (`map[string]interface\x7b\x7d`). -/
abbrev Params := List (String × JValue)

/-- A tool schema (types.go `ToolSchema`); the input schema is itself a
JSON-like value. -/
structure ToolSchema where
  name : String
  description : String
  inputSchema : JValue

/-- A registered tool (types.go `Tool`): schema plus callable body.  The
Go body returns `(interface\x7b\x7d, error)`, embedded as `Except`. -/
structure GoTool where
  schema : ToolSchema
  function : Params → Except String JValue

/-- A tool execution result (types.go `ToolResult`).  `result` is the Go
`interface\x7b\x7d` field, nil when absent. -/
structure ToolResult where
  name : String
  result : Option JValue
  error : String
  success : Bool

/-- The manager state (manager.go `DefaultToolManager`): registry plus
working directory.  The `sync.RWMutex` only serialises access and has no
sequential behaviour, so it is not modelled. -/
structure DefaultToolManager where
  tools : List (String × GoTool)
  workDir : String

/-- The apostrophe character, used in the Go error format strings. -/
def squote : String := String.singleton (Char.ofNat 39)

/-- `fmt.Errorf("tool '%s' already registered", name)` (manager.go line 46). -/
def dupMsg (name : String) : String :=
  "tool " ++ squote ++ name ++ squote ++ " already registered"

/-- `fmt.Sprintf("tool '%s' not found", name)` (manager.go line 86). -/
def notFoundMsg (name : String) : String :=
  "tool " ++ squote ++ name ++ squote ++ " not found"

/-- `GetTool` (manager.go lines 54-60): registry lookup. -/
def getTool (tm : DefaultToolManager) (name : String) : Option GoTool :=
  tm.tools.lookup name

/-- `RegisterTool` (manager.go lines 41-51): reject an already-present name
with a duplicate error and leave the registry unchanged, otherwise store the
tool.  The Go method mutates the receiver and returns `error`; here the
updated manager is returned alongside the optional error. -/
def registerTool (tm : DefaultToolManager) (name : String) (tool : GoTool) :
    DefaultToolManager × Option String :=
  match tm.tools.lookup name with
  | some _ => (tm, some (dupMsg name))
  | none => ({ tm with tools := tm.tools ++ [(name, tool)] }, none)

/-- `params["__work_dir__"] = workDir`: map assignment on the parameter
mapping. -/
def paramsSet (ps : Params) (k : String) (v : JValue) : Params :=
  if (ps.lookup k).isSome then
    ps.map (fun p => if p.1 == k then (k, v) else p)
  else
    ps ++ [(k, v)]

/-- `ExecuteTool` (manager.go lines 76-110).  Every code path returns
`..., nil` in Go — dispatch failures and tool-body failures are folded into a
`success=false` result — so the `Except` layer (the Go `error` return) is
always `.ok`. -/
def executeTool (tm : DefaultToolManager) (name : String) (params : Params) :
    Except String ToolResult :=
  match tm.tools.lookup name with
  | none =>
    .ok { name := name, result := none, error := notFoundMsg name, success := false }
  | some tool =>
    let params := paramsSet params "__work_dir__" (JValue.str tm.workDir)
    match tool.function params with
    | .error e => .ok { name := name, result := none, error := e, success := false }
    | .ok v => .ok { name := name, result := some v, error := "", success := true }

/-! ## read_file (internal/tools/read_file.go, readFileFunction)

The file has already been resolved, opened and split into lines by
`bufio.Scanner` upstream; the embedding takes the line list directly.  The
distinct `fmt.Errorf` branches are embedded as an inductive error type
together with a renderer producing the exact Go message. -/

/-- The error cases of `readFileFunction`'s range validation, carrying the
same data the Go format strings interpolate. -/
inductive ReadErr where
  | endBeforeStart (endLine startLine : Int)
  | startExceedsTotal (startLine totalLines : Int)
  | tooManyLines (lineCount : Int)
  | minLinesRequired (startLine suggestedEnd : Int)
deriving DecidableEq, Repr

/-- The Go error message of each `ReadErr` case (read_file.go lines 127,
130, 141, 149). -/
def readErrMsg : ReadErr → String
  | .endBeforeStart e s =>
    "end_line (" ++ toString e ++ ") must be >= start_line (" ++ toString s ++ ")"
  | .startExceedsTotal s t =>
    "start_line (" ++ toString s ++ ") exceeds total lines (" ++ toString t ++ ")"
  | .tooManyLines c =>
    "cannot read more than 250 lines at once (requested: " ++ toString c ++ ")"
  | .minLinesRequired s e =>
    "minimum 200 lines required when file has >= 200 lines. Consider reading lines "
      ++ toString s ++ "-" ++ toString e

/-- `ReadFileResult` (read_file.go lines 21-29), minus the file path which
is resolved upstream. -/
structure ReadFileResult where
  content : String
  totalLines : Int
  startLine : Int
  endLine : Int
  linesNotShown : String
  readEntireFile : Bool
deriving DecidableEq, Repr

/-- `strings.Join(lines, "\n")`. -/
def joinLines (lines : List String) : String :=
  String.intercalate "\n" lines

/-- The not-shown summary (read_file.go lines 161-171). -/
def notShownSummary (startLine endLine totalLines : Int) : String :=
  let parts : List String :=
    (if startLine > 1 then
      ["Lines 1-" ++ toString (startLine - 1) ++ " not shown"] else [])
    ++ (if endLine < totalLines then
      ["Lines " ++ toString (endLine + 1) ++ "-" ++ toString totalLines ++ " not shown"]
      else [])
  String.intercalate "; " parts

/-- `readFileFunction`'s core (read_file.go lines 104-174), applied to the
scanned lines: either return the whole file, or validate and extract the
requested inclusive 1-indexed range.  The Go `int` parameters are embedded
as `Int` (the values involved are far below 64-bit bounds). -/
def readFileCore (lines : List String) (shouldReadEntireFile : Bool)
    (startLine endLine : Int) : Except ReadErr ReadFileResult :=
  let totalLines : Int := lines.length
  if shouldReadEntireFile then
    .ok { content := joinLines lines, totalLines := totalLines, startLine := 1,
          endLine := totalLines, linesNotShown := "", readEntireFile := true }
  else
    let startLineInt := if startLine < 1 then 1 else startLine
    if endLine < startLineInt then .error (.endBeforeStart endLine startLineInt)
    else if startLineInt > totalLines then
      .error (.startExceedsTotal startLineInt totalLines)
    else
      let endLineInt := if endLine > totalLines then totalLines else endLine
      let lineCount := endLineInt - startLineInt + 1
      if lineCount > 250 then .error (.tooManyLines lineCount)
      else if lineCount < 200 ∧ totalLines ≥ 200 ∧ endLineInt < totalLines then
        let suggestedEnd :=
          if startLineInt + 199 > totalLines then totalLines else startLineInt + 199
        .error (.minLinesRequired startLineInt suggestedEnd)
      else
        let startIdx := (startLineInt - 1).toNat
        let endIdx := (endLineInt - 1).toNat
        let selectedLines := (lines.drop startIdx).take (endIdx + 1 - startIdx)
        .ok { content := joinLines selectedLines, totalLines := totalLines,
              startLine := startLineInt, endLine := endLineInt,
              linesNotShown := notShownSummary startLineInt endLineInt totalLines,
              readEntireFile := false }

/-! ## String helpers (`strings` package)

Embedded through character lists so that every operation reduces in the
kernel. -/

/-- `strings.HasPrefix(s, pre)`. -/
def strHasPrefix (s pre : String) : Bool :=
  pre.toList.isPrefixOf s.toList

/-- `strings.ToLower(s)` (the paths and extensions involved are ASCII, where
per-character lowering coincides with Go's mapping). -/
def strToLower (s : String) : String :=
  ⟨s.toList.map Char.toLower⟩

/-! ## Path helpers (`path/filepath`)

Unix path separator semantics (`os.IsPathSeparator` is `/` on the target
platform).  `filepath.Abs` is the identity on the already-absolute cleaned
paths used below, so the security checks take the resolved path directly. -/

/-- Helper for `filepath.Ext`: scan the reversed character list until a
separator; a dot yields the extension. -/
def goExtAux : List Char → List Char → String
  | [], _ => ""
  | c :: rest, acc =>
    if c = '/' then ""
    else if c = '.' then ⟨'.' :: acc⟩
    else goExtAux rest (c :: acc)

/-- `filepath.Ext(path)`: the suffix beginning at the final dot of the final
path element, or `""` when there is none. -/
def filepathExt (path : String) : String :=
  goExtAux path.toList.reverse []

/-- `filepath.Base(path)`: the last element of the path, after stripping
trailing separators; `"."` for the empty path, `"/"` for all-separator
paths. -/
def filepathBase (path : String) : String :=
  if path = "" then "."
  else
    let rev := path.toList.reverse.dropWhile (· = '/')
    if rev = [] then "/"
    else ⟨(rev.takeWhile (· ≠ '/')).reverse⟩

/-! ## Model filesystem

An association list from (resolved, absolute) path to entry; `os.Stat`
success is membership, `os.Remove` deletes the entry, `os.WriteFile` sets a
file entry.  Directories that only serve as parents are implicit, so
`os.MkdirAll` always succeeds in the model. -/

/-- A filesystem entry: a regular file with its byte content, or a
directory. -/
inductive FsEntry where
  | file (content : String)
  | dir
deriving DecidableEq, Repr

/-- The model filesystem state. -/
abbrev FS := List (String × FsEntry)

/-- `os.Stat` success: the path exists. -/
def fsExists (fs : FS) (path : String) : Bool :=
  (fs.lookup path).isSome

/-- `os.WriteFile`: set the entry at `path` to a file with `content`
(replacing an existing entry, or appending a new one). -/
def fsWrite (fs : FS) (path content : String) : FS :=
  if (fs.lookup path).isSome then
    fs.map (fun p => if p.1 == path then (path, .file content) else p)
  else
    fs ++ [(path, .file content)]

/-- `os.Remove`: drop the entry at `path`. -/
def fsRemove (fs : FS) (path : String) : FS :=
  fs.filter (fun p => ¬ p.1 == path)

/-! ## Security checks (delete_file.go, write_file.go) -/

/-- Dangerous system directories for delete (delete_file.go lines 94-106). -/
def deleteDangerousPaths : List String :=
  ["/etc", "/bin", "/sbin", "/usr/bin", "/usr/sbin", "/boot", "/sys", "/proc",
   "C:\\Windows", "C:\\Program Files", "C:\\Program Files (x86)"]

/-- Dangerous file extensions (identical lists in delete_file.go lines
120-123 and write_file.go lines 139-142). -/
def dangerousExtensions : List String :=
  [".exe", ".dll", ".sys", ".bat", ".cmd", ".com", ".scr",
   ".pif", ".application", ".gadget", ".msi", ".msp", ".msc"]

/-- Protected system file names for delete (delete_file.go lines 134-137). -/
def deleteSystemFiles : List String :=
  ["boot.ini", "ntldr", "bootmgr", "pagefile.sys", "hiberfil.sys",
   ".DS_Store", "Thumbs.db", "desktop.ini"]

/-- `performSecurityChecks` (delete_file.go lines 92-146), on the resolved
absolute path.  Note the extension comparison uses `filepath.Ext` directly,
without `strings.ToLower`, and the system-file comparison is also
case-sensitive. -/
def performSecurityChecks (filePath : String) : Option String :=
  match deleteDangerousPaths.find? (fun p => strHasPrefix filePath p) with
  | some p => some ("cannot delete files in system directory: " ++ p)
  | none =>
    let ext := filepathExt filePath
    if ext ∈ dangerousExtensions then
      some ("cannot delete potentially dangerous file type: " ++ ext)
    else
      let fileName := filepathBase filePath
      match deleteSystemFiles.find? (fun sf => fileName = sf) with
      | some sf => some ("cannot delete system file: " ++ sf)
      | none => none

/-- Dangerous system directories for write (write_file.go lines 111-125;
the delete list plus `/dev` and `C:\System32`). -/
def writeDangerousPaths : List String :=
  ["/etc", "/bin", "/sbin", "/usr/bin", "/usr/sbin", "/boot", "/sys", "/proc",
   "/dev", "C:\\Windows", "C:\\Program Files", "C:\\Program Files (x86)",
   "C:\\System32"]

/-- Protected system file names for write (write_file.go lines 153-156),
compared case-insensitively. -/
def writeSystemFiles : List String :=
  ["boot.ini", "ntldr", "bootmgr", "pagefile.sys", "hiberfil.sys",
   "autoexec.bat", "config.sys"]

/-- Characters rejected in file names (write_file.go line 165; each Go
entry is a one-character string, checked with `strings.Contains`). -/
def dangerousChars : List Char :=
  ['<', '>', ':', '\"', '|', '?', '*']

/-- `performWriteSecurityChecks` (write_file.go lines 109-173), on the
resolved absolute path.  Unlike the delete check, the extension is
lower-cased before comparison, as is the file name for the system-file
list; a dangerous-character check is added. -/
def performWriteSecurityChecks (filePath : String) : Option String :=
  match writeDangerousPaths.find? (fun p => strHasPrefix filePath p) with
  | some p => some ("cannot write files to system directory: " ++ p)
  | none =>
    let ext := strToLower (filepathExt filePath)
    if ext ∈ dangerousExtensions then
      some ("cannot create potentially dangerous file type: " ++ ext)
    else
      let fileName := filepathBase filePath
      match writeSystemFiles.find? (fun sf => strToLower fileName = sf) with
      | some sf => some ("cannot create system file: " ++ sf)
      | none =>
        match dangerousChars.find? (fun c => fileName.toList.contains c) with
        | some c => some ("filename contains dangerous character: " ++ String.singleton c)
        | none => none

/-! ## write_file (write_file.go, writeFileFunction) -/

/-- `WriteFileResult` (write_file.go lines 19-26), with the resolved path. -/
structure WriteFileResult where
  targetFile : String
  written : Bool
  created : Bool
  bytesWritten : Nat
  message : String
  fileExists : Bool
deriving DecidableEq, Repr

/-- `writeFileFunction`'s core (write_file.go lines 56-106), after parameter
parsing and path resolution: an absent `overwrite` parameter type-asserts to
`false` upstream.  Returns the updated filesystem and the Go
`(interface\x7b\x7d, error)` pair as `Except`; every branch below returns
`..., nil` in Go. -/
def writeFileFunction (fs : FS) (filePath content : String) (overwrite : Bool) :
    FS × Except String WriteFileResult :=
  let result : WriteFileResult :=
    { targetFile := filePath, written := false, created := false,
      bytesWritten := 0, message := "", fileExists := false }
  let fileExists := fsExists fs filePath
  let result := { result with fileExists := fileExists }
  if fileExists && !overwrite then
    (fs, .ok { result with message := "File exists and overwrite is not enabled" })
  else
    match performWriteSecurityChecks filePath with
    | some err => (fs, .ok { result with message := "Security check failed: " ++ err })
    | none =>
      -- os.MkdirAll on the parent always succeeds in the model filesystem.
      let fs2 := fsWrite fs filePath content
      let bytes := content.utf8ByteSize
      let wasCreated := !fileExists
      let msg :=
        if wasCreated then "File created successfully with " ++ toString bytes ++ " bytes"
        else "File overwritten successfully with " ++ toString bytes ++ " bytes"
      (fs2, .ok { result with written := true, created := wasCreated,
                              bytesWritten := bytes, message := msg })

/-! ## delete_file (delete_file.go, deleteFileFunction) -/

/-- `DeleteFileResult` (delete_file.go lines 17-22), with the resolved
path. -/
structure DeleteFileResult where
  targetFile : String
  deleted : Bool
  message : String
  fileInfo : String
deriving DecidableEq, Repr

/-- `deleteFileFunction`'s core (delete_file.go lines 46-89), after
parameter parsing and path resolution.  File sizes are byte lengths of the
model content (directory sizes are not modelled and report 0); the model has
no permission failures, so `os.Remove` always succeeds.  Every branch
returns `..., nil` in Go. -/
def deleteFileFunction (fs : FS) (filePath : String) : FS × Except String DeleteFileResult :=
  let result : DeleteFileResult :=
    { targetFile := filePath, deleted := false, message := "", fileInfo := "" }
  match fs.lookup filePath with
  | none => (fs, .ok { result with message := "File does not exist" })
  | some .dir =>
    (fs, .ok { result with fileInfo := "Directory with 0 bytes",
                           message := "Cannot delete directories with this tool" })
  | some (.file content) =>
    let result :=
      { result with fileInfo := "File with " ++ toString content.utf8ByteSize ++ " bytes" }
    match performSecurityChecks filePath with
    | some err =>
      (fs, .ok { result with message := "Security check failed: " ++ err })
    | none =>
      (fsRemove fs filePath,
       .ok { result with deleted := true, message := "File successfully deleted" })

/-! ## search_replace (searchReplaceFunction)

Strings are manipulated through their character lists, so that
`strings.Contains` and `strings.Replace(s, old, new, 1)` have direct
structural embeddings. -/

/-- `strings.Contains(s, pat)` on character lists (`pat` is non-empty in
every reachable call: the tool rejects an empty `old_string`). -/
def containsList (pat : List Char) : List Char → Bool
  | [] => pat.isEmpty
  | c :: rest => pat.isPrefixOf (c :: rest) || containsList pat rest

/-- `strings.Replace(s, old, new, 1)` on character lists: replace the
leftmost occurrence of `old` (non-empty) by `new`, leaving everything else
unchanged. -/
def replaceFirstList (old new : List Char) : List Char → List Char
  | [] => []
  | c :: rest =>
    if old.isPrefixOf (c :: rest) then new ++ (c :: rest).drop old.length
    else c :: replaceFirstList old new rest

/-- `strings.Contains` on strings. -/
def strContains (s pat : String) : Bool :=
  containsList pat.toList s.toList

/-- `strings.Replace(s, old, new, 1)` on strings. -/
def replaceFirst (s old new : String) : String :=
  ⟨replaceFirstList old.toList new.toList s.toList⟩

/-- `SearchReplaceResult` (part_001 lines 19-28), with the resolved path.
`lineNumber` is 0 when unset, matching the Go zero value. -/
structure SearchReplaceResult where
  filePath : String
  oldString : String
  newString : String
  replaced : Bool
  lineNumber : Nat
  originalLine : String
  newLine : String
  message : String
deriving DecidableEq, Repr

/-- `searchReplaceFunction`'s core (part_001 lines 62-128), after parameter
parsing, path resolution and the scanner's decomposition of the file into
lines.  The scan records the first line containing `old` (`foundLine`,
1-indexed); if none, the function returns before rewriting the file, which
is modelled by returning `none` for the new line list.  Otherwise only the
first occurrence within that line is replaced and the whole line list is
written back. -/
def searchReplaceFunction (lines : List String) (filePath old new : String) :
    Option (List String) × SearchReplaceResult :=
  let result : SearchReplaceResult :=
    { filePath := filePath, oldString := old, newString := new, replaced := false,
      lineNumber := 0, originalLine := "", newLine := "", message := "" }
  match lines.findIdx? (fun line => strContains line old) with
  | none => (none, { result with message := "Old string not found in file" })
  | some i =>
    let originalLine := lines.getD i ""
    let newLine := replaceFirst originalLine old new
    let newLines := lines.set i newLine
    (some newLines,
     { result with replaced := true, lineNumber := i + 1, originalLine := originalLine,
                   newLine := newLine,
                   message := "Successfully replaced text on line " ++ toString (i + 1) })

/-! ## grep_search fallback (grep_search.go)

The fallback path is used when `rg` is absent.  The compiled regular
expression is abstracted as a line predicate `p` (for a case-insensitive
search the Go code wraps the pattern in `(?i)` before compiling, which only
changes the predicate); the glob include/exclude filtering selects which
files reach `searchInFile` and is modelled by the corpus given to the walk.
-/

/-- A single match (grep_search.go `GrepMatch`); the fallback path never
sets `column`. -/
structure GrepMatch where
  file : String
  line : Nat
  column : Nat
  content : String
  mtch : String
deriving DecidableEq, Repr

/-- Index of the first occurrence of `pat` in `s`, if any
(`strings.Index`). -/
def firstIndexOf (s pat : List Char) : Option Nat :=
  match s with
  | [] => if pat.isEmpty then some 0 else none
  | _ :: rest =>
    if pat.isPrefixOf s then some 0
    else (firstIndexOf rest pat).map (· + 1)

/-- `extractMatch` (grep_search.go lines 249-261): lower-case both sides
unless case-sensitive, then return the substring of the content at the first
occurrence of the query, or the query itself when absent. -/
def extractMatch (content query : String) (caseSensitive : Bool) : String :=
  let content := if caseSensitive then content else strToLower content
  let query := if caseSensitive then query else strToLower query
  match firstIndexOf content.toList query.toList with
  | some idx => ⟨(content.toList.drop idx).take query.length⟩
  | none => query

/-- The scan loop of `searchInFile` (grep_search.go lines 275-291):
`for scanner.Scan() && matchCount < 50`, appending a match per matching
line.  `lineNumber` and `matchCount` are the Go loop variables; `acc` is
the shared `result.Matches` slice being appended to. -/
def searchInFileAux (filePath : String) (p : String → Bool)
    (query : String) (caseSensitive : Bool) :
    List String → Nat → Nat → List GrepMatch → List GrepMatch
  | [], _, _, acc => acc
  | line :: rest, lineNumber, matchCount, acc =>
    if matchCount < 50 then
      let ln := lineNumber + 1
      if p line then
        searchInFileAux filePath p query caseSensitive rest ln (matchCount + 1)
          (acc ++ [{ file := filePath, line := ln, column := 0, content := line,
                     mtch := extractMatch line query caseSensitive }])
      else searchInFileAux filePath p query caseSensitive rest ln matchCount acc
    else acc

/-- `searchInFile` (grep_search.go lines 264-294) on one file's lines:
`matchCount` starts at 0 for every file. -/
def searchInFile (filePath : String) (p : String → Bool) (query : String)
    (caseSensitive : Bool) (lines : List String) (acc : List GrepMatch) :
    List GrepMatch :=
  searchInFileAux filePath p query caseSensitive lines 0 0 acc

/-- `GrepSearchResult` (grep_search.go lines 32-40), aggregate part.  The
Go field `Matches` is named `matchList` here because `matches` is reserved
in Lean. -/
structure GrepSearchResult where
  query : String
  matchList : List GrepMatch
  totalMatches : Nat
  matchedFiles : Nat
  caseSensitive : Bool
deriving DecidableEq, Repr

/-- `fallbackGrepSearch` (grep_search.go lines 168-238): walk the (already
glob-filtered) corpus, searching each file in turn into the shared match
slice, then compute the aggregate totals. -/
def fallbackGrepSearch (query : String) (caseSensitive : Bool)
    (p : String → Bool) (corpus : List (String × List String)) :
    GrepSearchResult :=
  let found := corpus.foldl
    (fun acc f => searchInFile f.1 p query caseSensitive f.2 acc) []
  { query := query, matchList := found, totalMatches := found.length,
    matchedFiles := ((found.map (fun m => m.file)).eraseDups).length,
    caseSensitive := caseSensitive }

/-! ## Theorems -/

/-! ### C1: the orchestration loop is bounded by 5 rounds -/

theorem roundsLoop_le (responses : Nat → List StreamToolCall) :
    ∀ (fuel iteration : Nat), roundsLoop responses iteration fuel ≤ iteration + fuel := by
  intro fuel
  induction fuel with
  | zero => intro it; simp [roundsLoop]
  | succ n ih =>
    intro it
    rw [roundsLoop]
    cases h : (accumToolCalls (responses it)).isEmpty
    · simp only [h, Bool.false_eq_true, if_false]
      have := ih (it + 1)
      omega
    · simp only [h, if_true]
      omega

theorem roundsLoop_all_tools (responses : Nat → List StreamToolCall)
    (h : ∀ i, (accumToolCalls (responses i)).isEmpty = false) :
    ∀ (fuel iteration : Nat), roundsLoop responses iteration fuel = iteration + fuel := by
  intro fuel
  induction fuel with
  | zero => intro it; simp [roundsLoop]
  | succ n ih =>
    intro it
    rw [roundsLoop]
    simp only [h it, Bool.false_eq_true, if_false]
    rw [ih (it + 1)]
    omega

/-- C1: for every sequence of model responses, `StreamQueryWithTools`
performs at most `maxIterations = 5` rounds and returns without an error
(`.ok`); in particular when every round's stream assembles at least one tool
call the loop runs exactly 5 rounds and still terminates normally. -/
theorem C1_stream_query_round_cap (responses : Nat → List StreamToolCall) :
    (∃ n, streamQueryWithTools responses = .ok n ∧ n ≤ 5) ∧
    ((∀ i, (accumToolCalls (responses i)).isEmpty = false) →
      streamQueryWithTools responses = .ok 5) := by
  constructor
  · exact ⟨roundsLoop responses 0 maxIterations, rfl,
      by simpa [maxIterations] using roundsLoop_le responses maxIterations 0⟩
  · intro h
    unfold streamQueryWithTools
    rw [roundsLoop_all_tools responses h maxIterations 0]
    rfl

/-- A fragment carrying a complete tool call, used as a concrete input. -/
def demoFragment : StreamToolCall :=
  { index := some 0, id := "call-1", type := "function", name := "read_file",
    arguments := "" }

/-- C1 witness: a transport that answers every round with a tool-call
fragment drives the loop to exactly 5 rounds, terminating via the cap. -/
theorem C1_stream_query_round_cap_witness :
    streamQueryWithTools (fun _ => [demoFragment]) = .ok 5 :=
  (C1_stream_query_round_cap (fun _ => [demoFragment])).2 (fun _ => by decide)

/-! ### C2: per-index characterisation of the fragment accumulation -/

theorem getD_replicate_self {α : Type} (k j : Nat) (e : α) :
    (List.replicate k e).getD j e = e := by
  rcases lt_or_ge j k with h | h
  · simp [List.getD, List.getElem?_replicate, h]
  · exact List.getD_eq_default _ _ (by simpa using h)

theorem ensureLen_getD (acc : List AccToolCall) (idx i : Nat) :
    (ensureLen acc idx).getD i emptyToolCall = acc.getD i emptyToolCall := by
  unfold ensureLen
  rcases lt_or_ge i acc.length with h | h
  · exact List.getD_append _ _ _ _ h
  · rw [List.getD_append_right _ _ _ _ h, List.getD_eq_default _ _ h,
        getD_replicate_self]

theorem ensureLen_length (acc : List AccToolCall) (idx : Nat) :
    idx < (ensureLen acc idx).length := by
  simp only [ensureLen, List.length_append, List.length_replicate]
  omega

theorem set_getD_self {α : Type} (l : List α) (j : Nat) (x d : α) (h : j < l.length) :
    (l.set j x).getD j d = x := by
  simp [List.getD, List.getElem?_set, h]

theorem set_getD_ne {α : Type} (l : List α) (i j : Nat) (x d : α) (h : i ≠ j) :
    (l.set j x).getD i d = l.getD i d := by
  simp [List.getD, List.getElem?_set, Ne.symm h]

theorem applyFragment_getD (acc : List AccToolCall) (f : StreamToolCall) (i : Nat) :
    (applyFragment acc f).getD i emptyToolCall =
      if f.index = some i then applyOne (acc.getD i emptyToolCall) f
      else acc.getD i emptyToolCall := by
  unfold applyFragment
  cases hf : f.index with
  | none => simp [hf]
  | some idx =>
    by_cases hi : i = idx
    · subst hi
      rw [if_pos rfl, set_getD_self _ _ _ _ (ensureLen_length acc i), ensureLen_getD]
    · have hne : ¬ (some idx = some i) := by simpa using Ne.symm hi
      rw [if_neg hne, set_getD_ne _ _ _ _ _ hi, ensureLen_getD]

theorem foldl_applyFragment_getD (fs : List StreamToolCall) :
    ∀ (acc : List AccToolCall) (i : Nat),
      (fs.foldl applyFragment acc).getD i emptyToolCall =
        (fs.filter (fun f => f.index = some i)).foldl applyOne
          (acc.getD i emptyToolCall) := by
  induction fs with
  | nil => intro acc i; simp
  | cons f rest ih =>
    intro acc i
    simp only [List.foldl_cons]
    rw [ih]
    by_cases h : f.index = some i
    · rw [List.filter_cons_of_pos (by simpa using h), List.foldl_cons,
          applyFragment_getD, if_pos h]
    · rw [List.filter_cons_of_neg (by simpa using h),
          applyFragment_getD, if_neg h]

theorem applyOne_arguments (tc : AccToolCall) (f : StreamToolCall) :
    (applyOne tc f).arguments = tc.arguments ++ f.arguments := by
  unfold applyOne
  by_cases h1 : f.id = "" <;> by_cases h2 : f.name = "" <;>
    by_cases h3 : f.arguments = "" <;>
    simp [h1, h2, h3]

theorem applyOne_name (tc : AccToolCall) (f : StreamToolCall) :
    (applyOne tc f).name = if f.name = "" then tc.name else f.name := by
  unfold applyOne
  by_cases h1 : f.id = "" <;> by_cases h2 : f.name = "" <;>
    by_cases h3 : f.arguments = "" <;>
    simp [h1, h2, h3]

theorem applyOne_id (tc : AccToolCall) (f : StreamToolCall) :
    (applyOne tc f).id = if f.id = "" then tc.id else f.id := by
  unfold applyOne
  by_cases h1 : f.id = "" <;> by_cases h2 : f.name = "" <;>
    by_cases h3 : f.arguments = "" <;>
    simp [h1, h2, h3]

theorem foldl_applyOne_arguments (l : List StreamToolCall) :
    ∀ tc : AccToolCall,
      (l.foldl applyOne tc).arguments =
        tc.arguments ++ concatAll (l.map (fun f => f.arguments)) := by
  induction l with
  | nil => intro tc; simp [concatAll]
  | cons f rest ih =>
    intro tc
    simp only [List.foldl_cons, List.map_cons, concatAll]
    rw [ih, applyOne_arguments, String.append_assoc]

theorem foldl_applyOne_name (l : List StreamToolCall) :
    ∀ tc : AccToolCall,
      (l.foldl applyOne tc).name =
        (if lastNonEmpty (l.map (fun f => f.name)) = "" then tc.name
         else lastNonEmpty (l.map (fun f => f.name))) := by
  induction l with
  | nil => intro tc; simp [lastNonEmpty]
  | cons f rest ih =>
    intro tc
    simp only [List.foldl_cons, List.map_cons, lastNonEmpty]
    rw [ih, applyOne_name]
    by_cases ht : lastNonEmpty (rest.map (fun f => f.name)) = "" <;>
      by_cases hf : f.name = "" <;> simp [ht, hf]

theorem foldl_applyOne_id (l : List StreamToolCall) :
    ∀ tc : AccToolCall,
      (l.foldl applyOne tc).id =
        (if lastNonEmpty (l.map (fun f => f.id)) = "" then tc.id
         else lastNonEmpty (l.map (fun f => f.id))) := by
  induction l with
  | nil => intro tc; simp [lastNonEmpty]
  | cons f rest ih =>
    intro tc
    simp only [List.foldl_cons, List.map_cons, lastNonEmpty]
    rw [ih, applyOne_id]
    by_cases ht : lastNonEmpty (rest.map (fun f => f.id)) = "" <;>
      by_cases hf : f.id = "" <;> simp [ht, hf]

/-- A stream with complete header fragments at indices 0 and 1 followed by
argument text split across interleaved fragments. -/
def splitArgFragments : List StreamToolCall :=
  [{ index := some 0, id := "id0", type := "function", name := "tool_a", arguments := "" },
   { index := some 1, id := "id1", type := "function", name := "tool_b", arguments := "" },
   { index := some 0, id := "", type := "", name := "", arguments := "alp" },
   { index := some 1, id := "", type := "", name := "", arguments := "be" },
   { index := some 0, id := "", type := "", name := "", arguments := "ha" },
   { index := some 1, id := "", type := "", name := "", arguments := "ta" }]

/-- C2 (amended): for every stream of tool-call fragments and every index,
the accumulated entry at that index is exactly the merge, in arrival order,
of the fragments carrying that index: its arguments are the concatenation of
that index's argument fragments in arrival order, and its identifier and
name are the *last* non-empty values received for that index (each non-empty
fragment overwrites the field; the original claim said "first").  In
particular fragments at indices 0 and 1 with argument text split across
fragments yield exactly two completed tool calls with fully concatenated
arguments. -/
theorem C2_accumulation_per_index (fs : List StreamToolCall) (i : Nat) :
    accumToolCalls splitArgFragments =
      [{ id := "id0", type := "function", name := "tool_a", arguments := "alpha" },
       { id := "id1", type := "function", name := "tool_b", arguments := "beta" }] ∧
    (accumToolCalls fs).getD i emptyToolCall = mergedAt fs i ∧
    (mergedAt fs i).arguments =
      concatAll ((fs.filter (fun f => f.index = some i)).map (fun f => f.arguments)) ∧
    (mergedAt fs i).name =
      lastNonEmpty ((fs.filter (fun f => f.index = some i)).map (fun f => f.name)) ∧
    (mergedAt fs i).id =
      lastNonEmpty ((fs.filter (fun f => f.index = some i)).map (fun f => f.id)) := by
  refine ⟨by decide, ?_, ?_, ?_, ?_⟩
  · unfold accumToolCalls mergedAt
    rw [foldl_applyFragment_getD]
    simp [List.getD]
  · unfold mergedAt
    rw [foldl_applyOne_arguments]
    simp [emptyToolCall]
  · unfold mergedAt
    rw [foldl_applyOne_name]
    by_cases h : lastNonEmpty
        ((fs.filter (fun f => f.index = some i)).map (fun f => f.name)) = "" <;>
      simp [h, emptyToolCall]
  · unfold mergedAt
    rw [foldl_applyOne_id]
    by_cases h : lastNonEmpty
        ((fs.filter (fun f => f.index = some i)).map (fun f => f.id)) = "" <;>
      simp [h, emptyToolCall]

/-- C2 counterexample: two fragments at index 0 both carry a non-empty name;
the accumulated name is the second one, "b", not the first non-empty value
"a" the claim describes. -/
theorem C2_counterexample :
    ((accumToolCalls
        [{ index := some 0, id := "", type := "", name := "a", arguments := "" },
         { index := some 0, id := "", type := "", name := "b", arguments := "" }]
      ).getD 0 emptyToolCall).name = "b" ∧ ("b" : String) ≠ "a" := by
  exact ⟨rfl, by decide⟩

/-! ### C3, C4: registry registration and dispatch -/

theorem lookup_append_of_none {β : Type} (l l2 : List (String × β)) (k : String)
    (h : List.lookup k l = none) : List.lookup k (l ++ l2) = List.lookup k l2 := by
  induction l with
  | nil => simp
  | cons p rest ih =>
    obtain ⟨pk, pv⟩ := p
    rw [List.cons_append]
    cases hb : (k == pk) with
    | true => simp [List.lookup, hb] at h
    | false =>
      simp only [List.lookup, hb] at h ⊢
      exact ih h

theorem lookup_none_not_mem {β : Type} (l : List (String × β)) (k : String)
    (h : List.lookup k l = none) : k ∉ l.map Prod.fst := by
  induction l with
  | nil => simp
  | cons p rest ih =>
    obtain ⟨pk, pv⟩ := p
    cases hb : (k == pk) with
    | true => simp [List.lookup, hb] at h
    | false =>
      simp only [List.lookup, hb] at h
      simp only [List.map_cons, List.mem_cons]
      rintro (rfl | hmem)
      · simp at hb
      · exact ih h hmem

/-- C3: registering a tool under an already-present name returns the
duplicate-name error and leaves the manager unchanged (so the first
registration still answers lookups); registering under a fresh name succeeds
and stores the tool; and registration preserves uniqueness of the registered
names. -/
theorem C3_register_tool (tm : DefaultToolManager) (name : String) (tool : GoTool) :
    ((tm.tools.lookup name).isSome →
      registerTool tm name tool = (tm, some (dupMsg name))) ∧
    (tm.tools.lookup name = none →
      (registerTool tm name tool).2 = none ∧
      (registerTool tm name tool).1.tools.lookup name = some tool) ∧
    ((tm.tools.map Prod.fst).Nodup →
      ((registerTool tm name tool).1.tools.map Prod.fst).Nodup) := by
  refine ⟨?_, ?_, ?_⟩
  · intro h
    cases hl : List.lookup name tm.tools with
    | none => rw [hl] at h; simp at h
    | some t => simp [registerTool, hl]
  · intro h
    refine ⟨by simp [registerTool, h], ?_⟩
    simp only [registerTool, h]
    rw [lookup_append_of_none _ _ _ h]
    simp [List.lookup]
  · intro h
    cases hl : List.lookup name tm.tools with
    | some t => simpa [registerTool, hl] using h
    | none =>
      simp only [registerTool, hl, List.map_append, List.map_cons, List.map_nil]
      rw [List.nodup_append]
      exact ⟨h, List.nodup_singleton name,
        fun a ha hb => by
          simp only [List.mem_singleton] at hb
          subst hb
          exact lookup_none_not_mem _ _ hl ha⟩

/-- A minimal concrete tool used as a witness input. -/
def demoTool : GoTool :=
  { schema := { name := "read_file", description := "", inputSchema := JValue.null },
    function := fun _ => .ok JValue.null }

/-- An empty manager with a fixed working directory. -/
def demoManagerEmpty : DefaultToolManager := { tools := [], workDir := "/workspace" }

/-- The manager after one successful registration of `demoTool`. -/
def demoManager1 : DefaultToolManager :=
  (registerTool demoManagerEmpty "read_file" demoTool).1

/-- C3 witness: registering "read_file" a second time is rejected with the
duplicate message and leaves the manager intact, while the first
registration reported no error. -/
theorem C3_register_tool_witness :
    registerTool demoManager1 "read_file" demoTool
      = (demoManager1, some (dupMsg "read_file")) ∧
    (registerTool demoManagerEmpty "read_file" demoTool).2 = none :=
  ⟨(C3_register_tool demoManager1 "read_file" demoTool).1 (by rfl),
   ((C3_register_tool demoManagerEmpty "read_file" demoTool).2.1 rfl).1⟩

/-- C4: executing an unregistered tool name returns, with a nil Go-level
error (`.ok`), a `ToolResult` whose success flag is false and whose error
text names the missing tool; the manager itself is a pure input and is not
modified. -/
theorem C4_execute_unknown_tool (tm : DefaultToolManager) (name : String)
    (params : Params) (h : tm.tools.lookup name = none) :
    executeTool tm name params =
      .ok { name := name, result := none, error := notFoundMsg name,
            success := false } := by
  simp [executeTool, h]

/-- C4 witness: `execute("nonexistent", \x7b\x7d)` on an empty registry
returns success=false with the descriptive message and no exception. -/
theorem C4_execute_unknown_tool_witness :
    executeTool demoManagerEmpty "nonexistent" [] =
      .ok { name := "nonexistent", result := none,
            error := notFoundMsg "nonexistent", success := false } :=
  C4_execute_unknown_tool demoManagerEmpty "nonexistent" [] rfl

/-! ### C5, C6: read_file range validation -/

/-- C5 (amended): with should_read_entire_file=false, the range-length rule
fires exactly when the clamped range (start clamped up to 1, end clamped
down to the total line count) covers strictly more than 250 lines, and only
after the end-before-start and start-past-end checks pass; requests whose
clamped range covers at most 250 lines are never rejected by this rule.
(The original claim is off by one: lines 5-254 cover exactly 250 lines and
are accepted, and a nominally over-long range is accepted when clamping
shrinks it to at most 250 lines.) -/
theorem C5_range_length_rule (lines : List String) (s e c : Int) :
    readFileCore lines false s e = .error (.tooManyLines c) ↔
      (¬ e < (if s < 1 then 1 else s) ∧
       ¬ (if s < 1 then 1 else s) > (lines.length : Int) ∧
       c = (if e > (lines.length : Int) then (lines.length : Int) else e)
             - (if s < 1 then 1 else s) + 1 ∧
       c > 250) := by
  unfold readFileCore
  simp only [Bool.false_eq_true, if_false]
  split_ifs <;> simp_all <;> omega

/-- C5 counterexample: requesting lines 5-254 of a 300-line file covers
exactly 250 lines, so the request succeeds, contradicting the claim that it
fails for exceeding 250 lines. -/
theorem C5_counterexample :
    (readFileCore (List.replicate 300 "x") false 5 254).isOk = true := by
  rfl

/-- C6: with should_read_entire_file=false, the minimum-read rule fires
exactly when the earlier guards pass, the clamped range covers at most 250
but fewer than 200 lines, the file has at least 200 lines, and the clamped
end stops strictly before the last line; the reported suggestion is the
clamped start together with min(start+199, total lines).  In every other
case this rule does not reject the request. -/
theorem C6_min_lines_rule (lines : List String) (s e a b : Int) :
    readFileCore lines false s e = .error (.minLinesRequired a b) ↔
      (¬ e < (if s < 1 then 1 else s) ∧
       ¬ (if s < 1 then 1 else s) > (lines.length : Int) ∧
       ¬ ((if e > (lines.length : Int) then (lines.length : Int) else e)
            - (if s < 1 then 1 else s) + 1 > 250) ∧
       (if e > (lines.length : Int) then (lines.length : Int) else e)
            - (if s < 1 then 1 else s) + 1 < 200 ∧
       (lines.length : Int) ≥ 200 ∧
       (if e > (lines.length : Int) then (lines.length : Int) else e)
            < (lines.length : Int) ∧
       a = (if s < 1 then 1 else s) ∧
       b = (if (if s < 1 then 1 else s) + 199 > (lines.length : Int)
            then (lines.length : Int) else (if s < 1 then 1 else s) + 199)) := by
  unfold readFileCore
  simp only [Bool.false_eq_true, if_false]
  split_ifs <;> simp_all <;> omega

/-! ### C7: write_file without overwrite on an existing file -/

/-- C7: targeting an existing file with the overwrite flag false (the Go
type assertion also yields false when the flag is absent) returns a non-error
result with written=false and file_exists=true, and the filesystem is
unchanged; the function returns before the security check, directory
creation and write, so the same result is produced even for paths the
security check would reject. -/
theorem C7_write_no_overwrite (fs : FS) (filePath content : String)
    (h : fsExists fs filePath = true) :
    writeFileFunction fs filePath content false =
      (fs, .ok { targetFile := filePath, written := false, created := false,
                 bytesWritten := 0,
                 message := "File exists and overwrite is not enabled",
                 fileExists := true }) := by
  simp [writeFileFunction, h]

/-- A one-file filesystem used as a concrete witness input; the path even
has a blocked extension, showing the security check is not consulted. -/
def demoFS : FS := [("/workspace/a.exe", .file "old")]

/-- C7 witness: rewriting an existing file without overwrite leaves the
filesystem unchanged and reports written=false, file_exists=true. -/
theorem C7_write_no_overwrite_witness :
    writeFileFunction demoFS "/workspace/a.exe" "new" false =
      (demoFS, .ok { targetFile := "/workspace/a.exe", written := false,
                     created := false, bytesWritten := 0,
                     message := "File exists and overwrite is not enabled",
                     fileExists := true }) :=
  C7_write_no_overwrite demoFS "/workspace/a.exe" "new" rfl

/-! ### C8: search_replace touches only the first matching line, first
occurrence -/

theorem replaceFirst_list_spec (old new : List Char) (hold : old ≠ []) :
    ∀ s : List Char, containsList old s = true →
      ∃ pre suf, s = pre ++ old ++ suf ∧
        replaceFirstList old new s = pre ++ new ++ suf ∧
        ∀ pre2 suf2, s = pre2 ++ old ++ suf2 → pre.length ≤ pre2.length := by
  intro s
  induction s with
  | nil =>
    intro h
    simp [containsList, List.isEmpty_iff] at h
    exact absurd h hold
  | cons c rest ih =>
    intro h
    cases hp : old.isPrefixOf (c :: rest) with
    | true =>
      obtain ⟨t, ht⟩ := List.isPrefixOf_iff_prefix.mp hp
      refine ⟨[], t, by simp [ht.symm], ?_, fun pre2 suf2 _ => Nat.zero_le _⟩
      rw [replaceFirstList, if_pos hp, ← ht, List.drop_left]
      simp
    | false =>
      have h2 : containsList old rest = true := by
        rw [containsList, hp] at h
        simpa using h
      obtain ⟨pre, suf, hs, hr, hmin⟩ := ih h2
      refine ⟨c :: pre, suf, by simp [hs], ?_, ?_⟩
      · rw [replaceFirstList, if_neg (by simp [hp]), hr]
        simp
      · rintro pre2 suf2 heq
        cases pre2 with
        | nil =>
          exfalso
          simp only [List.nil_append] at heq
          have : old.isPrefixOf (c :: rest) = true :=
            List.isPrefixOf_iff_prefix.mpr ⟨suf2, by rw [heq]⟩
          rw [hp] at this
          exact Bool.false_ne_true this
        | cons d pre2t =>
          have hrest : rest = pre2t ++ old ++ suf2 := by
            simpa using congrArg List.tail heq
          have := hmin pre2t suf2 hrest
          simp only [List.length_cons]
          omega

theorem findIdx?_none {α : Type} (p : α → Bool) :
    ∀ l : List α, (∀ a ∈ l, p a = false) → l.findIdx? p = none := by
  intro l
  induction l with
  | nil => intro _; simp
  | cons a rest ih =>
    intro h
    rw [List.findIdx?_cons, h a (by simp)]
    simp [List.findIdx?_succ, ih (fun b hb => h b (by simp [hb]))]

theorem findIdx?_first {α : Type} (p : α → Bool) (d : α) :
    ∀ (l : List α) (i : Nat), i < l.length → p (l.getD i d) = true →
      (∀ j, j < i → p (l.getD j d) = false) →
      l.findIdx? p = some i := by
  intro l
  induction l with
  | nil => intro i hi; simp at hi
  | cons a rest ih =>
    intro i hi hp hprev
    cases i with
    | zero =>
      have hp0 : p a = true := by simpa using hp
      rw [List.findIdx?_cons, hp0]
      simp
    | succ n =>
      have ha : p a = false := by simpa using hprev 0 (Nat.succ_pos n)
      rw [List.findIdx?_cons, ha]
      have hn : rest.findIdx? p = some n := by
        refine ih n (by simpa using hi) (by simpa using hp) ?_
        intro j hj
        simpa using hprev (j + 1) (by omega)
      simp [List.findIdx?_succ, hn]

/-- C8: with a non-empty search string, if no line contains it the file is
not rewritten and a non-error "not replaced" result with an explanatory
message is returned; if some line contains it, exactly the first such line
is modified, every other line is unchanged, and within the modified line the
replacement happens at the leftmost occurrence of the substring, leaving the
rest of the line intact. -/
theorem C8_search_replace (lines : List String) (fp old new : String)
    (hold : old ≠ "") :
    ((∀ l ∈ lines, strContains l old = false) →
      searchReplaceFunction lines fp old new =
        (none,
         { filePath := fp, oldString := old, newString := new, replaced := false,
           lineNumber := 0, originalLine := "", newLine := "",
           message := "Old string not found in file" })) ∧
    (∀ i, i < lines.length → strContains (lines.getD i "") old = true →
      (∀ j, j < i → strContains (lines.getD j "") old = false) →
      (searchReplaceFunction lines fp old new).1 =
          some (lines.set i (replaceFirst (lines.getD i "") old new)) ∧
      (searchReplaceFunction lines fp old new).2.replaced = true ∧
      (searchReplaceFunction lines fp old new).2.lineNumber = i + 1 ∧
      (∀ j, j ≠ i →
        (lines.set i (replaceFirst (lines.getD i "") old new)).getD j "" =
          lines.getD j "") ∧
      ∃ pre suf : List Char,
        (lines.getD i "").toList = pre ++ old.toList ++ suf ∧
        (replaceFirst (lines.getD i "") old new).toList = pre ++ new.toList ++ suf ∧
        ∀ pre2 suf2, (lines.getD i "").toList = pre2 ++ old.toList ++ suf2 →
          pre.length ≤ pre2.length) := by
  constructor
  · intro h
    unfold searchReplaceFunction
    rw [findIdx?_none _ _ (fun l hl => h l hl)]
  · intro i hi hp hprev
    have hfi : lines.findIdx? (fun line => strContains line old) = some i := by
      refine findIdx?_first _ "" lines i hi ?_ ?_
      · simpa using hp
      · intro j hj; simpa using hprev j hj
    refine ⟨?_, ?_, ?_, ?_, ?_⟩
    · simp [searchReplaceFunction, hfi]
    · simp [searchReplaceFunction, hfi]
    · simp [searchReplaceFunction, hfi]
    · intro j hj
      exact set_getD_ne _ _ _ _ _ hj
    · have holdl : old.toList ≠ [] := by
        intro hc
        apply hold
        cases old
        simp_all [String.toList]
      have hcl : containsList old.toList (lines.getD i "").toList = true := hp
      obtain ⟨pre, suf, hs, hr, hmin⟩ :=
        replaceFirst_list_spec old.toList new.toList holdl (lines.getD i "").toList hcl
      exact ⟨pre, suf, hs, hr, hmin⟩

/-- C8 witness: in a two-line file where both lines contain "foo", only the
first line is rewritten, and only its leftmost occurrence. -/
theorem C8_search_replace_witness :
    (searchReplaceFunction ["afoob", "cfoob"] "/f" "foo" "bar").1 =
      some ["abarb", "cfoob"] :=
  (((C8_search_replace ["afoob", "cfoob"] "/f" "foo" "bar" (by decide)).2
      0 (by decide) (by decide) (fun j hj => absurd hj (Nat.not_lt_zero j))).1).trans
    (by decide)

/-! ### C9: the fallback grep cap is per file, not per search -/

theorem searchInFileAux_length (fp : String) (p : String → Bool) (q : String)
    (cs : Bool) :
    ∀ (lines : List String) (ln mc : Nat) (acc : List GrepMatch),
      (searchInFileAux fp p q cs lines ln mc acc).length ≤
        acc.length + (50 - mc) := by
  intro lines
  induction lines with
  | nil => intro ln mc acc; simp [searchInFileAux]
  | cons line rest ih =>
    intro ln mc acc
    rw [searchInFileAux]
    by_cases hmc : mc < 50
    · rw [if_pos hmc]
      cases hp : p line with
      | true =>
        rw [if_pos rfl]
        have h := ih (ln + 1) (mc + 1)
          (acc ++ [{ file := fp, line := ln + 1, column := 0, content := line,
                     mtch := extractMatch line q cs }])
        simp only [List.length_append, List.length_cons, List.length_nil] at h
        omega
      | false =>
        rw [if_neg (by simp)]
        exact le_trans (ih (ln + 1) mc acc) (by omega)
    · rw [if_neg hmc]
      omega

/-- C9 (amended): the fallback scanner's 50-match cap is enforced per file
(`matchCount` restarts at 0 for every file `filepath.Walk` visits), so a
single file contributes at most 50 matches — in particular a file with
1,000 matching lines reports at most 50 — while a whole search returns at
most 50 matches *per file searched*, not 50 overall. -/
theorem C9_fallback_cap_per_file (query : String) (caseSensitive : Bool)
    (p : String → Bool) (corpus : List (String × List String)) :
    (∀ filePath lines acc,
      (searchInFile filePath p query caseSensitive lines acc).length ≤
        acc.length + 50) ∧
    (fallbackGrepSearch query caseSensitive p corpus).totalMatches ≤
      50 * corpus.length := by
  have hfile : ∀ (filePath : String) (lines : List String) (acc : List GrepMatch),
      (searchInFile filePath p query caseSensitive lines acc).length ≤
        acc.length + 50 := by
    intro filePath lines acc
    simpa using searchInFileAux_length filePath p query caseSensitive lines 0 0 acc
  refine ⟨hfile, ?_⟩
  have hfold : ∀ (cs2 : List (String × List String)) (acc : List GrepMatch),
      (cs2.foldl (fun acc f => searchInFile f.1 p query caseSensitive f.2 acc)
        acc).length ≤ acc.length + 50 * cs2.length := by
    intro cs2
    induction cs2 with
    | nil => intro acc; simp
    | cons f rest ih =>
      intro acc
      simp only [List.foldl_cons, List.length_cons]
      have h1 := hfile f.1 f.2 acc
      have h2 := ih (searchInFile f.1 p query caseSensitive f.2 acc)
      have : 50 * (rest.length + 1) = 50 * rest.length + 50 := by ring
      omega
  have := hfold corpus []
  simpa [fallbackGrepSearch] using this

/-- C9 counterexample: two files with 51 matching lines each yield 100
matches in one search — the 50-match cap does not hold per search across
multiple files. -/
theorem C9_counterexample :
    (fallbackGrepSearch "x" true (fun line => line == "x")
        [("a.txt", List.replicate 51 "x"),
         ("b.txt", List.replicate 51 "x")]).totalMatches = 100 ∧
    ¬ (100 ≤ 50) := by
  exact ⟨by decide, by decide⟩

/-! ### C10: delete_file's extension blocklist is case-sensitive -/

/-- C10: for an existing regular file outside the blocked directories and
system-file names, a path whose extension is the upper-case ".EXE" passes
delete_file's security check and the file is removed, while the same
conditions with the lower-case ".exe" extension are rejected by the
security check, leaving the filesystem unchanged; write_file's check, by
contrast, lower-cases the extension first and rejects a concrete ".EXE"
path. -/
theorem C10_delete_extension_case (fs : FS) (path1 path2 c1 c2 : String)
    (h1 : fs.lookup path1 = some (.file c1))
    (h1p : ∀ d ∈ deleteDangerousPaths, strHasPrefix path1 d = false)
    (h1e : filepathExt path1 = ".EXE")
    (h1b : ∀ sf ∈ deleteSystemFiles, filepathBase path1 ≠ sf)
    (h2 : fs.lookup path2 = some (.file c2))
    (h2p : ∀ d ∈ deleteDangerousPaths, strHasPrefix path2 d = false)
    (h2e : filepathExt path2 = ".exe") :
    (deleteFileFunction fs path1).1 = fsRemove fs path1 ∧
    (deleteFileFunction fs path1).2 = .ok
      { targetFile := path1, deleted := true,
        message := "File successfully deleted",
        fileInfo := "File with " ++ toString c1.utf8ByteSize ++ " bytes" } ∧
    (deleteFileFunction fs path2).1 = fs ∧
    (deleteFileFunction fs path2).2 = .ok
      { targetFile := path2, deleted := false,
        message := "Security check failed: " ++
          ("cannot delete potentially dangerous file type: " ++ ".exe"),
        fileInfo := "File with " ++ toString c2.utf8ByteSize ++ " bytes" } ∧
    performWriteSecurityChecks "/home/user/app.EXE" =
      some "cannot create potentially dangerous file type: .exe" := by
  have hfind1 : deleteDangerousPaths.find? (fun p => strHasPrefix path1 p) = none :=
    List.find?_eq_none.mpr (fun d hd => by simp [h1p d hd])
  have hfind2 : deleteDangerousPaths.find? (fun p => strHasPrefix path2 p) = none :=
    List.find?_eq_none.mpr (fun d hd => by simp [h2p d hd])
  have hsys1 : deleteSystemFiles.find?
      (fun sf => filepathBase path1 = sf) = none :=
    List.find?_eq_none.mpr (fun sf hsf => by simp [h1b sf hsf])
  have hsec1 : performSecurityChecks path1 = none := by
    unfold performSecurityChecks
    rw [hfind1]
    simp only [h1e]
    rw [if_neg (by decide)]
    simp only [hsys1]
  have hsec2 : performSecurityChecks path2 =
      some ("cannot delete potentially dangerous file type: " ++ ".exe") := by
    unfold performSecurityChecks
    rw [hfind2]
    simp only [h2e]
    rw [if_pos (by decide)]
  refine ⟨?_, ?_, ?_, ?_, by decide⟩
  · simp [deleteFileFunction, h1, hsec1]
  · simp [deleteFileFunction, h1, hsec1]
  · simp [deleteFileFunction, h2, hsec2]
  · simp [deleteFileFunction, h2, hsec2]

/-- A filesystem with the same program name under both extension casings,
outside every blocked directory. -/
def demoDeleteFS : FS :=
  [("/home/user/app.EXE", .file "aa"), ("/home/user/app.exe", .file "bb")]

/-- C10 witness: the ".EXE" file is deleted while the ".exe" file is
rejected by the security check and survives. -/
theorem C10_delete_extension_case_witness :
    (deleteFileFunction demoDeleteFS "/home/user/app.EXE").1 =
      fsRemove demoDeleteFS "/home/user/app.EXE" ∧
    (deleteFileFunction demoDeleteFS "/home/user/app.exe").1 = demoDeleteFS := by
  have h := C10_delete_extension_case demoDeleteFS
    "/home/user/app.EXE" "/home/user/app.exe" "aa" "bb"
    (by decide) (by decide) (by decide) (by decide)
    (by decide) (by decide) (by decide)
  exact ⟨h.1, h.2.2.1⟩

end OpenCursor
